import Mathlib

/-!
Verification development for the willknow chat orchestration backend.

The definitions below are a shallow embedding of the turn-loop engine in
`backend/src/services/llm.js` and of the SubAgent client in
`subagent.js` (the unnamed source part exporting `probeSubAgent`,
`buildSubAgentTool`, `callSubAgent` and `loadSubAgentTools`).

Modelling conventions:
- JavaScript values appearing as tool inputs / JSON payloads are modelled by
  the inductive `JValue`; `JSON.parse` (an external library call) is passed
  in as a parameter `jsonParse : String → Option JValue`, `none` standing
  for a thrown parse error, and `JSON.stringify` as a parameter
  `stringify : JValue → String`.
- Network transport (fetch, SSE line framing via `iterLines`, the
  `data: ` prefix handling, and the per-line `JSON.parse` whose failures
  skip the line) is abstracted away: the stream parsers consume the list of
  decoded wire events, and the LLM / SubAgent HTTP calls are oracles
  returning `Except String _` (`Except.error` standing for a thrown
  exception such as a non-2xx response).
- Mutable JS objects are modelled by explicit state passing: the sessions
  object is an association list, and `runChat`'s local mutable variables
  live in a `RunState` record that also keeps the caller-supplied
  `messages` array as a separate `caller` field so that frame conditions
  about it can be stated.
- The `onEvent` SSE callback is modelled by an `events` list accumulated in
  the state.  The incremental `text` events forwarded by the stream parsers
  happen inside the provider-adapter oracle and are not part of the turn
  loop's own emissions, which only produce `tool_call` / `tool_result`
  events; those are the ones recorded here.
-/

/-- A JavaScript/JSON value (the subset relevant to tool inputs). -/
inductive JValue where
  | null : JValue
  | bool (b : Bool) : JValue
  | num (n : Int) : JValue
  | str (s : String) : JValue
  | arr (elems : List JValue) : JValue
  | obj (fields : List (String × JValue)) : JValue
deriving Repr

/-- Property access `v[k]` on a JS value: defined on objects, `undefined`
(modelled `none`) otherwise. -/
def JValue.getField : JValue → String → Option JValue
  | .obj fields, k => (fields.find? (fun f => f.1 == k)).map (fun f => f.2)
  | _, _ => none

mutual
/-- JS template-literal stringification (`String(v)`), as used by the
`read_skill` error message interpolation. -/
def JValue.display : JValue → String
  | .null => "null"
  | .bool b => cond b "true" "false"
  | .num n => toString n
  | .str s => s
  | .arr xs => JValue.displayList xs
  | .obj _ => "[object Object]"

def JValue.displayList : List JValue → String
  | [] => ""
  | [x] => x.display
  | x :: y :: rest => x.display ++ "," ++ JValue.displayList (y :: rest)
end

/-- Display of a possibly-`undefined` JS value inside a template literal. -/
def jsDisplay : Option JValue → String
  | none => "undefined"
  | some v => v.display

/-- JS strict equality `v === s` between a possibly-undefined value and a
string. -/
def isStrEqJ : Option JValue → String → Bool
  | some (.str s), t => s == t
  | _, _ => false

/-- One content block of the shared intermediate message representation
(`{type:'text'|'tool_use'|'tool_result', ...}` objects in llm.js). -/
inductive Block where
  | text (t : String) : Block
  | toolUse (id name : String) (input : JValue) : Block
  | toolResult (tool_use_id : String) (content : String) : Block
deriving Repr

def Block.isToolUseB : Block → Bool
  | .toolUse _ _ _ => true
  | _ => false

def Block.isToolResultB : Block → Bool
  | .toolResult _ _ => true
  | _ => false

/-- The `tool_use_id` carried by a tool_result block (`""` on other blocks). -/
def Block.resultId : Block → String
  | .toolResult i _ => i
  | _ => ""

/-- The string content carried by a tool_result block (`""` on other blocks). -/
def Block.resultContent : Block → String
  | .toolResult _ c => c
  | _ => ""

/-- A message `{ role, content }`; `content` is either a plain string or an
array of content blocks, as in the JS code. -/
inductive MsgContent where
  | str (s : String) : MsgContent
  | blocks (bs : List Block) : MsgContent
deriving Repr

structure Message where
  role : String
  content : MsgContent
deriving Repr

/-- The completed response returned by `parseAnthropicStream` /
`parseOAIStream` (`{ content }`). -/
structure Response where
  content : List Block
deriving Repr

-- ─── parseAnthropicStream (llm.js lines 192-233) ─────────────────────────────

/-- The `event.content_block` payload of a Format-A `content_block_start` event. -/
inductive AnthContentBlockInfo where
  | toolUseBlock (id name : String) : AnthContentBlockInfo
  | textBlock : AnthContentBlockInfo
  | otherBlock : AnthContentBlockInfo
deriving Repr

/-- The `event.delta` payload of a Format-A `content_block_delta` event. -/
inductive AnthDelta where
  | textDelta (text : String) : AnthDelta
  | inputJsonDelta (fragment : String) : AnthDelta
  | otherDelta : AnthDelta
deriving Repr

/-- A decoded Format-A (Anthropic) SSE event.  Lines that are not
`data: ` lines, are empty, are `[DONE]`, or fail JSON decoding are skipped
by the source loop and therefore never reach this list; event types other
than the three below fall into `otherEvent`. -/
inductive AnthEvent where
  | contentBlockStart (block : AnthContentBlockInfo) : AnthEvent
  | contentBlockDelta (delta : AnthDelta) : AnthEvent
  | contentBlockStop : AnthEvent
  | otherEvent : AnthEvent
deriving Repr

/-- The in-progress tool_use accumulator of `parseAnthropicStream`
(`{ type:'tool_use', id, name, inputRaw }`). -/
structure AnthToolBuf where
  id : String
  name : String
  inputRaw : String
deriving Repr

structure AnthState where
  content : List Block
  currentText : String
  currentToolUse : Option AnthToolBuf
deriving Repr

def anthStep (jsonParse : String → Option JValue) (st : AnthState) :
    AnthEvent → AnthState
  | .contentBlockStart (.toolUseBlock id name) =>
      { st with currentToolUse := some { id := id, name := name, inputRaw := "" } }
  | .contentBlockStart .textBlock => { st with currentText := "" }
  | .contentBlockStart .otherBlock => st
  | .contentBlockDelta (.textDelta t) =>
      -- also forwards `onEvent('text', ...)`, abstracted away here
      { st with currentText := st.currentText ++ t }
  | .contentBlockDelta (.inputJsonDelta p) =>
      match st.currentToolUse with
      | some buf => { st with currentToolUse := some { buf with inputRaw := buf.inputRaw ++ p } }
      | none => st
  | .contentBlockDelta .otherDelta => st
  | .contentBlockStop =>
      match st.currentToolUse with
      | some buf =>
          -- try { JSON.parse } catch { input = {} }
          let input := (jsonParse buf.inputRaw).getD (JValue.obj [])
          { st with content := st.content ++ [Block.toolUse buf.id buf.name input],
                    currentToolUse := none }
      | none =>
          if st.currentText ≠ "" then
            { st with content := st.content ++ [Block.text st.currentText], currentText := "" }
          else st
  | .otherEvent => st

def parseAnthropicStream (jsonParse : String → Option JValue)
    (events : List AnthEvent) : Response :=
  { content := (events.foldl (anthStep jsonParse)
      { content := [], currentText := "", currentToolUse := none }).content }

-- ─── parseOAIStream (llm.js lines 314-377) ──────────────────────────────────

/-- One element of `delta.tool_calls` in a Format-B chunk. -/
structure OAIToolCallDelta where
  index : Nat
  id : Option String := none
  name : Option String := none
  arguments : Option String := none
deriving Repr

/-- The `choices[0].delta` payload of a Format-B chunk. -/
structure OAIDelta where
  content : Option String := none
  tool_calls : Option (List OAIToolCallDelta) := none
deriving Repr

/-- A decoded Format-B SSE line: either the literal `[DONE]` marker or a
chunk (whose `delta` / `finish_reason` may each be absent).  Non-`data: `
lines, blank lines and lines failing JSON decoding are skipped by the
source loop and never reach this list. -/
inductive OAILine where
  | doneMark : OAILine
  | chunk (delta : Option OAIDelta) (finish_reason : Option String) : OAILine
deriving Repr

/-- One entry of `toolCallBuffers`: `{ id: '', name: '', argsRaw: '' }`. -/
structure OAIToolBuf where
  id : String
  name : String
  argsRaw : String
deriving Repr

def emptyOAIToolBuf : OAIToolBuf := { id := "", name := "", argsRaw := "" }

/-- The JS object `toolCallBuffers` maps numeric indices to buffers and
`Object.values` iterates integer keys in ascending order, so it is modelled
as an association list kept sorted by index: `updateBufAt` creates the
missing entry (at its sorted position) and applies the field updates. -/
def updateBufAt : List (Nat × OAIToolBuf) → Nat → (OAIToolBuf → OAIToolBuf) →
    List (Nat × OAIToolBuf)
  | [], idx, f => [(idx, f emptyOAIToolBuf)]
  | (i, b) :: rest, idx, f =>
      if i = idx then (i, f b) :: rest
      else if idx < i then (idx, f emptyOAIToolBuf) :: (i, b) :: rest
      else (i, b) :: updateBufAt rest idx f

/-- Processing of one `delta.tool_calls` element: `if (tc.id)` (JS
truthiness: the empty string does not overwrite), `name`/`arguments`
appended when truthy. -/
def applyToolCallDelta (bufs : List (Nat × OAIToolBuf)) (tc : OAIToolCallDelta) :
    List (Nat × OAIToolBuf) :=
  updateBufAt bufs tc.index (fun buf =>
    let buf := match tc.id with
      | some i => if i ≠ "" then { buf with id := i } else buf
      | none => buf
    let buf := match tc.name with
      | some n => if n ≠ "" then { buf with name := buf.name ++ n } else buf
      | none => buf
    match tc.arguments with
      | some a => if a ≠ "" then { buf with argsRaw := buf.argsRaw ++ a } else buf
      | none => buf)

structure OAIState where
  content : List Block
  textBuffer : String
  toolCallBuffers : List (Nat × OAIToolBuf)
  finished : Bool
deriving Repr

/-- The body of the `finishReason === 'stop' || 'tool_calls'` branch:
flush the text buffer, then every tool-call buffer (input `{}` on JSON
parse failure); the buffers are not cleared by the source. -/
def oaiFlushFinish (jsonParse : String → Option JValue) (st : OAIState) : OAIState :=
  let st := { st with finished := true }
  let st :=
    if st.textBuffer ≠ "" then
      { st with content := st.content ++ [Block.text st.textBuffer], textBuffer := "" }
    else st
  { st with content := st.content ++ st.toolCallBuffers.map (fun e =>
      Block.toolUse e.2.id e.2.name ((jsonParse e.2.argsRaw).getD (JValue.obj []))) }

/-- The `for await` loop of `parseOAIStream`; `[DONE]` sets `finished`
and breaks. -/
def oaiRun (jsonParse : String → Option JValue) :
    List OAILine → OAIState → OAIState
  | [], st => st
  | .doneMark :: _, st => { st with finished := true }
  | .chunk delta finishReason :: rest, st =>
      let st := match delta with
        | none => st
        | some d =>
            let st := match d.content with
              | some c =>
                  -- `if (delta.content)`: JS truthiness, also forwards onEvent text
                  if c ≠ "" then { st with textBuffer := st.textBuffer ++ c } else st
              | none => st
            match d.tool_calls with
              | some tcs =>
                  { st with toolCallBuffers := tcs.foldl applyToolCallDelta st.toolCallBuffers }
              | none => st
      let st :=
        if finishReason = some "stop" ∨ finishReason = some "tool_calls" then
          oaiFlushFinish jsonParse st
        else st
      oaiRun jsonParse rest st

def parseOAIStream (jsonParse : String → Option JValue) (lines : List OAILine) :
    Response :=
  let st := oaiRun jsonParse lines
    { content := [], textBuffer := "", toolCallBuffers := [], finished := false }
  -- 防止 finish_reason 事件丢失的情况 (missing-terminal flush)
  if ¬ st.finished ∨ (st.content.isEmpty ∧ (st.textBuffer ≠ "" ∨ ¬ st.toolCallBuffers.isEmpty)) then
    let c := st.content ++ (if st.textBuffer ≠ "" then [Block.text st.textBuffer] else [])
    { content := c ++ st.toolCallBuffers.filterMap (fun e =>
        if e.2.name ≠ "" then
          some (Block.toolUse e.2.id e.2.name ((jsonParse e.2.argsRaw).getD (JValue.obj [])))
        else none) }
  else { content := st.content }

-- ─── Tools, skills, SubAgent client (subagent.js) ────────────────────────────

/-- An LLM tool definition `{ name, description, input_schema }`. -/
structure Tool where
  name : String
  description : String
  input_schema : JValue
deriving Repr

/-- A skill config entry (the fields `runChat` uses). -/
structure Skill where
  name : String
  description : String
  content : String
  enabled : Bool
deriving Repr

/-- The `auth` object of a SubAgent config (`{ type, token }`). -/
structure SubAgentAuth where
  type : String
  token : Option String
deriving Repr

/-- A SubAgent configuration entry. -/
structure SubAgentConfig where
  id : String
  name : String
  url : String
  auth : Option SubAgentAuth
  enabled : Bool
deriving Repr

/-- One capability reported by a SubAgent's `/willknow/info` endpoint. -/
structure SubAgentCapability where
  name : String
  description : String
deriving Repr

/-- The JSON body returned by `probeSubAgent` (fields may be absent). -/
structure SubAgentInfo where
  name : Option String
  description : Option String
  capabilities : Option (List SubAgentCapability)
deriving Repr

/-- The JSON body returned by a SubAgent's `/willknow/chat` endpoint. -/
structure SubAgentResult where
  message : String
  session_id : Option String
deriving Repr

/-- An entry of the tool list built by `loadSubAgentTools`. -/
structure SubAgentEntry where
  subAgentId : String
  subAgentUrl : String
  subAgentAuth : Option SubAgentAuth
  tool : Tool
deriving Repr

/-- JS `a || b` for an optional string against a string default
(the empty string is falsy). -/
def orElseStr (a : Option String) (b : String) : String :=
  match a with
  | some s => if s ≠ "" then s else b
  | none => b

/-- Embeds `buildSubAgentTool` from subagent.js: synthesizes the LLM tool for one
discovered SubAgent. -/
def buildSubAgentTool (subAgent : SubAgentConfig) (info : SubAgentInfo) :
    SubAgentEntry :=
  let capList := String.intercalate "\n" ((info.capabilities.getD []).map
    (fun c => "- " ++ c.name ++ ": " ++ c.description))
  let description := orElseStr info.name subAgent.name ++ ": " ++
    orElseStr info.description "" ++
    (if capList ≠ "" then "\n\nCapabilities:\n" ++ capList else "")
  { subAgentId := subAgent.id
    subAgentUrl := subAgent.url
    subAgentAuth := subAgent.auth
    tool := {
      name := "subagent_" ++ subAgent.id.replace "-" "_"
      description := description
      input_schema := JValue.obj [
        ("type", JValue.str "object"),
        ("properties", JValue.obj [
          ("message", JValue.obj [
            ("type", JValue.str "string"),
            ("description", JValue.str "用自然语言描述你要执行的操作")])]),
        ("required", JValue.arr [JValue.str "message"])] } }

/-- The request body `callSubAgent` sends to `/willknow/chat`:
`{ message }` plus `session_id` only when the passed session id is truthy
(`if (sessionId) body.session_id = sessionId`).  The `message` field is the
raw JS value `tc.input.message`, which may be `undefined` (`none`). -/
structure SubAgentChatBody where
  message : Option JValue
  session_id : Option String
deriving Repr

def subAgentChatBody (message : Option JValue) (sessionId : Option String) :
    SubAgentChatBody :=
  { message := message
    session_id := match sessionId with
      | some s => if s ≠ "" then some s else none
      | none => none }

/-- The mutable `sessions` object (`subAgentId → sessionId`), as an
association list; a stored value may itself be `undefined` (`none`) because
`runChat` assigns `result.session_id` unconditionally. -/
def Sessions := List (String × Option String)

/-- Reading `sessions[id]` (missing key and stored-`undefined` both read as
`undefined`). -/
def lookupSession (s : Sessions) (id : String) : Option String :=
  match List.find? (fun e => e.1 == id) s with
  | some e => e.2
  | none => none

/-- The assignment `sessions[id] = v`. -/
def setSession : Sessions → String → Option String → Sessions
  | [], id, v => [(id, v)]
  | e :: rest, id, v =>
      if e.1 = id then (id, v) :: rest else e :: setSession rest id v

/-- The collection loop of `loadSubAgentTools`: disabled SubAgents are
skipped; a failed discovery probe (`probe _ _ = .error _`, the thrown
exception of `probeSubAgent`) is caught, logged and skipped. -/
def loadSubAgentToolsList
    (probe : String → Option SubAgentAuth → Except String SubAgentInfo) :
    List SubAgentConfig → List SubAgentEntry
  | [] => []
  | sa :: rest =>
      if ¬ sa.enabled then loadSubAgentToolsList probe rest
      else match probe sa.url sa.auth with
        | .ok info => buildSubAgentTool sa info :: loadSubAgentToolsList probe rest
        | .error _ => loadSubAgentToolsList probe rest

/-- Embeds `loadSubAgentTools` from subagent.js: returns the tool entries plus a
fresh empty sessions object. -/
def loadSubAgentTools
    (probe : String → Option SubAgentAuth → Except String SubAgentInfo)
    (subAgents : List SubAgentConfig) : List SubAgentEntry × Sessions :=
  (loadSubAgentToolsList probe subAgents, ([] : Sessions))

-- ─── runChat (llm.js lines 4-124) ───────────────────────────────────────────

def MAX_TURNS : Nat := 10

/-- The `READ_SKILL_TOOL` definition from llm.js. -/
def READ_SKILL_TOOL : Tool :=
  { name := "read_skill"
    description := "Read the full instructions for an available skill. Call this when you determine a user task matches a skill\x27s description."
    input_schema := JValue.obj [
      ("type", JValue.str "object"),
      ("properties", JValue.obj [
        ("skill_name", JValue.obj [
          ("type", JValue.str "string"),
          ("description", JValue.str "The name of the skill to read (must match a name in <available_skills>)")])]),
      ("required", JValue.arr [JValue.str "skill_name"])] }

/-- Embeds `xmlEscape` from llm.js. -/
def xmlEscape (s : String) : String :=
  ((s.replace "&" "&amp;").replace "<" "&lt;").replace ">" "&gt;"

/-- Embeds `buildSystemPrompt` from llm.js (`none` = JS `null` when no skills). -/
def buildSystemPrompt (skills : List Skill) : Option String :=
  if skills.isEmpty then none
  else
    let items := String.intercalate "\n" (skills.map (fun s =>
      "  <skill>\n    <name>" ++ xmlEscape s.name ++ "</name>\n    <description>" ++
      xmlEscape s.description ++ "</description>\n  </skill>"))
    some (String.intercalate "\n" [
      "You have access to the following skills that extend your capabilities.",
      "When a user task matches a skill\x27s description, use the read_skill tool to load the full instructions before proceeding.",
      "",
      "<available_skills>",
      items,
      "</available_skills>"])

/-- The tool list assembled at the top of `runChat`:
sub-agent tools plus `READ_SKILL_TOOL` when any skill is enabled. -/
def assembleTools (subAgentTools : List SubAgentEntry) (enabledSkills : List Skill) :
    List Tool :=
  subAgentTools.map (fun e => e.tool) ++
    (if enabledSkills.length > 0 then [READ_SKILL_TOOL] else [])

/-- A progress event emitted by the turn loop through `onEvent`.
(The incremental `text` events are produced inside the provider adapters
and the terminal `done`/`error` events by the HTTP route, none of which is
part of `runChat`'s own loop body.) -/
inductive Event where
  | toolCall (tool : String) (agentName : String) (input : Option JValue) : Event
  | toolResult (tool : String) (content : String) : Event
deriving Repr

/-- The mutable state of one `runChat` invocation.  `caller` is the
caller-supplied `messages` array (a distinct JS array object from the local
`history = [...messages]` copy); `llmCalls` counts `callLLM` invocations. -/
structure RunState where
  caller : List Message
  history : List Message
  sessions : Sessions
  events : List Event
  llmCalls : Nat

/-- The data of one `tool_use` block as used by the dispatch loop
(`tc.id`, `tc.name`, `tc.input`). -/
structure ToolUseData where
  id : String
  name : String
  input : JValue
deriving Repr

/-- Embeds `response.content.filter(b => b.type === 'tool_use')`. -/
def toolUsesOf : List Block → List ToolUseData
  | [] => []
  | .toolUse i n inp :: rest => { id := i, name := n, input := inp } :: toolUsesOf rest
  | _ :: rest => toolUsesOf rest

/-- The body of the `for (const tc of toolCalls)` loop in `runChat`:
dispatch one tool-invocation request and produce its `tool_result` block.
`callSub` is the network oracle for `callSubAgent(url, auth, message,
sessionId)`; `Except.error` is a thrown exception (caught here). -/
def dispatchTool
    (callSub : String → Option SubAgentAuth → Option JValue → Option String →
      Except String SubAgentResult)
    (subAgentTools : List SubAgentEntry) (enabledSkills : List Skill)
    (st : RunState) (tc : ToolUseData) : RunState × Block :=
  if tc.name = "read_skill" then
    -- read_skill: progressive disclosure step 2
    let skillName := tc.input.getField "skill_name"
    let skill := enabledSkills.find? (fun s => isStrEqJ skillName s.name)
    let resultContent := match skill with
      | some s => s.content
      | none => "Skill \"" ++ jsDisplay skillName ++ "\" not found. Available: " ++
          String.intercalate ", " (enabledSkills.map (fun s => s.name))
    (st, Block.toolResult tc.id resultContent)
  else
    match subAgentTools.find? (fun e => e.tool.name == tc.name) with
    | none => (st, Block.toolResult tc.id "Tool not found")
    | some entry =>
      let agentName := (entry.tool.description.splitOn ":").headD ""
      let inputMessage := tc.input.getField "message"
      let st := { st with events := st.events ++ [Event.toolCall tc.name agentName inputMessage] }
      let sessionId := lookupSession st.sessions entry.subAgentId
      match callSub entry.subAgentUrl entry.subAgentAuth inputMessage sessionId with
      | .ok result =>
          -- 保存 session_id 供后续对话复用
          let st := { st with sessions := setSession st.sessions entry.subAgentId result.session_id }
          let st := { st with events := st.events ++ [Event.toolResult tc.name result.message] }
          (st, Block.toolResult tc.id result.message)
      | .error err =>
          let errMsg := "调用失败: " ++ err
          let st := { st with events := st.events ++ [Event.toolResult tc.name errMsg] }
          (st, Block.toolResult tc.id errMsg)

/-- The whole `for (const tc of toolCalls)` loop, also collecting the
`toolResults` array. -/
def dispatchTools
    (callSub : String → Option SubAgentAuth → Option JValue → Option String →
      Except String SubAgentResult)
    (subAgentTools : List SubAgentEntry) (enabledSkills : List Skill)
    (st : RunState) : List ToolUseData → RunState × List Block
  | [] => (st, [])
  | tc :: rest =>
      let r := dispatchTool callSub subAgentTools enabledSkills st tc
      let r2 := dispatchTools callSub subAgentTools enabledSkills r.1 rest
      (r2.1, r.2 :: r2.2)

/-- The outcome of `runChat`: the final state, plus the exception it was
terminated by, if any (`runChat` itself lets `callLLM` errors propagate). -/
structure RunOutcome where
  state : RunState
  error : Option String

/-- The state after `callLLM` returned and the assistant message was
appended to history (将 assistant 消息追加到历史); `llmCalls` records the
completed `callLLM` invocation. -/
def afterModelState (st : RunState) (response : Response) : RunState :=
  { st with
    llmCalls := st.llmCalls + 1
    history := st.history ++
      [{ role := "assistant", content := MsgContent.blocks response.content }] }

/-- The state after the dispatch loop ran and its `toolResults` array was
appended to history as one user-role message
(将 tool results 追加到历史：user 消息携带 tool_result). -/
def afterDispatchState
    (callSub : String → Option SubAgentAuth → Option JValue → Option String →
      Except String SubAgentResult)
    (subAgentTools : List SubAgentEntry) (enabledSkills : List Skill)
    (st : RunState) (response : Response) : RunState :=
  let r := dispatchTools callSub subAgentTools enabledSkills
    (afterModelState st response) (toolUsesOf response.content)
  { r.1 with history := r.1.history ++
      [{ role := "user", content := MsgContent.blocks r.2 }] }

/-- The `for (let turn = 0; turn < MAX_TURNS; turn++)` loop of `runChat`.
`llm` is the oracle for one `callLLM(model, history, tools, onEvent,
systemPrompt)` round trip (its turn index makes an arbitrary per-turn
behaviour expressible); `Except.error` is a thrown exception, which aborts
the loop (the attempted invocation still counts into `llmCalls`). -/
def runTurns
    (llm : Nat → List Message → List Tool → Option String → Except String Response)
    (callSub : String → Option SubAgentAuth → Option JValue → Option String →
      Except String SubAgentResult)
    (subAgentTools : List SubAgentEntry) (enabledSkills : List Skill)
    (tools : List Tool) (systemPrompt : Option String) :
    Nat → Nat → RunState → RunOutcome
  | 0, _, st => { state := st, error := none }
  | fuel + 1, turn, st =>
      match llm turn st.history tools systemPrompt with
      | .error e => { state := { st with llmCalls := st.llmCalls + 1 }, error := some e }
      | .ok response =>
          -- 检查是否有 tool_use
          if (toolUsesOf response.content).isEmpty then
            { state := afterModelState st response, error := none }
          else
            runTurns llm callSub subAgentTools enabledSkills tools systemPrompt
              fuel (turn + 1)
              (afterDispatchState callSub subAgentTools enabledSkills st response)

/-- Embeds `runChat` from llm.js, over the two network oracles. -/
def runChat
    (llm : Nat → List Message → List Tool → Option String → Except String Response)
    (callSub : String → Option SubAgentAuth → Option JValue → Option String →
      Except String SubAgentResult)
    (messages : List Message) (subAgentTools : List SubAgentEntry)
    (subAgentSessions : Sessions) (skills : List Skill) : RunOutcome :=
  let history := messages   -- const history = [...messages]: a fresh copy
  let enabledSkills := skills.filter (fun s => s.enabled)
  let tools := assembleTools subAgentTools enabledSkills
  let systemPrompt := buildSystemPrompt enabledSkills
  runTurns llm callSub subAgentTools enabledSkills tools systemPrompt
    MAX_TURNS 0
    { caller := messages, history := history, sessions := subAgentSessions,
      events := [], llmCalls := 0 }

-- ─── Provider wire request shapes (llm.js lines 139-148, 274-312) ────────────

/-- One message of the Anthropic request body:
`{ role, content: Array.isArray(m.content) ? m.content : [{type:'text',text}] }`. -/
structure AnthWireMessage where
  role : String
  content : List Block
deriving Repr

def anthMessageOf (m : Message) : AnthWireMessage :=
  { role := m.role
    content := match m.content with
      | .blocks bs => bs
      | .str s => [Block.text s] }

/-- The `messages.map(...)` of `callAnthropic`'s request body. -/
def callAnthropicMessages (messages : List Message) : List AnthWireMessage :=
  messages.map anthMessageOf

/-- A `tool_calls` entry of an OpenAI-format assistant message
(`{ id, type: 'function', function: { name, arguments } }`). -/
structure OAIToolCall where
  id : String
  type : String
  function_name : String
  function_arguments : String
deriving Repr

/-- One message of the OpenAI-format request body. -/
structure OAIMessage where
  role : String
  content : Option String
  tool_call_id : Option String := none
  tool_calls : Option (List OAIToolCall) := none
deriving Repr

/-- The texts of the `.text` blocks of a list, in order. -/
def textsOfBlocks (bs : List Block) : List String :=
  bs.filterMap (fun b => match b with | .text t => some t | _ => none)

/-- The per-message body of the `for (const msg of messages)` loop of
`convertMessagesToOAI` (each branch `push`es the returned messages). -/
def oaiMessagesOf (stringify : JValue → String) (msg : Message) : List OAIMessage :=
  match msg.content with
  | .str s => [{ role := msg.role, content := some s }]
  | .blocks bs =>
      -- assistant 消息：可能含 tool_use
      if msg.role = "assistant" then
        let textParts := String.join (textsOfBlocks bs)
        let toolCalls := bs.filterMap (fun b => match b with
          | .toolUse id name input =>
              some ({ id := id, type := "function",
                      function_name := name, function_arguments := stringify input } : OAIToolCall)
          | _ => none)
        [{ role := "assistant",
           content := if textParts ≠ "" then some textParts else none,  -- textParts || null
           tool_calls := if toolCalls.length > 0 then some toolCalls else none }]
      else
        -- user 消息：可能含 tool_result（Anthropic 格式）
        let toolResults := bs.filter Block.isToolResultB
        if msg.role = "user" ∧ ¬ toolResults.isEmpty then
          toolResults.map (fun tr =>
            { role := "tool", content := some tr.resultContent,
              tool_call_id := some tr.resultId })
        else
          -- 普通文本
          [{ role := msg.role, content := some (String.join (textsOfBlocks bs)) }]

/-- Embeds `convertMessagesToOAI` from llm.js. -/
def convertMessagesToOAI (stringify : JValue → String) :
    List Message → List OAIMessage
  | [] => []
  | msg :: rest => oaiMessagesOf stringify msg ++ convertMessagesToOAI stringify rest

-- ─── Oracle type abbreviations (used only in theorem statements) ─────────────

/-- Type of the `callSubAgent(url, auth, message, sessionId)` network oracle. -/
abbrev CallSubOracle :=
  String → Option SubAgentAuth → Option JValue → Option String → Except String SubAgentResult

/-- Type of the `callLLM(model, history, tools, onEvent, systemPrompt)`
network oracle (the leading `Nat` is the turn index, letting the oracle
answer differently on every turn). -/
abbrev LLMOracle :=
  Nat → List Message → List Tool → Option String → Except String Response

-- ─── Helper lemmas ───────────────────────────────────────────────────────────

theorem foldlAppendStr (l : List String) :
    ∀ (s : String), l.foldl (· ++ ·) s = s ++ l.foldl (· ++ ·) "" := by
  induction l with
  | nil => intro s; simp
  | cons x xs ih =>
      intro s
      simp only [List.foldl_cons]
      rw [ih (s ++ x), ih ("" ++ x)]
      simp [String.append_assoc]

theorem joinAppendStr (a b : List String) :
    String.join (a ++ b) = String.join a ++ String.join b := by
  simp only [String.join, List.foldl_append]
  rw [foldlAppendStr b (List.foldl (· ++ ·) "" a)]

/-- The function `dispatchTool` only touches `sessions` and `events`; it leaves
`caller`, `history` and `llmCalls` alone, and always produces a
`tool_result` block whose id is the request's id. -/
theorem dispatchTool_spec (cs : CallSubOracle) (sats : List SubAgentEntry)
    (sk : List Skill) (st : RunState) (tc : ToolUseData) :
    (dispatchTool cs sats sk st tc).1.caller = st.caller ∧
    (dispatchTool cs sats sk st tc).1.history = st.history ∧
    (dispatchTool cs sats sk st tc).1.llmCalls = st.llmCalls ∧
    ∃ c, (dispatchTool cs sats sk st tc).2 = Block.toolResult tc.id c := by
  unfold dispatchTool
  split
  · exact ⟨rfl, rfl, rfl, _, rfl⟩
  · split
    · exact ⟨rfl, rfl, rfl, _, rfl⟩
    · dsimp only
      split <;> exact ⟨rfl, rfl, rfl, _, rfl⟩

/-- The loop `dispatchTools` produces exactly one `tool_result` block per request,
in request order, carrying the matching ids, and leaves `caller`,
`history`, `llmCalls` alone. -/
theorem dispatchTools_spec (cs : CallSubOracle) (sats : List SubAgentEntry)
    (sk : List Skill) :
    ∀ (tcs : List ToolUseData) (st : RunState),
    (dispatchTools cs sats sk st tcs).2.map Block.resultId = tcs.map (fun tc => tc.id) ∧
    (∀ b ∈ (dispatchTools cs sats sk st tcs).2, b.isToolResultB = true) ∧
    (dispatchTools cs sats sk st tcs).1.caller = st.caller ∧
    (dispatchTools cs sats sk st tcs).1.history = st.history ∧
    (dispatchTools cs sats sk st tcs).1.llmCalls = st.llmCalls := by
  intro tcs
  induction tcs with
  | nil => intro st; simp [dispatchTools]
  | cons tc rest ih =>
      intro st
      obtain ⟨hc, hh, hl, c, hblk⟩ := dispatchTool_spec cs sats sk st tc
      obtain ⟨ihids, ihres, ihc, ihh, ihl⟩ := ih (dispatchTool cs sats sk st tc).1
      refine ⟨?_, ?_, ?_, ?_, ?_⟩
      · simp only [dispatchTools, List.map_cons, hblk]
        rw [ihids]
        simp [Block.resultId]
      · intro b hb
        simp only [dispatchTools, List.mem_cons] at hb
        rcases hb with hb | hb
        · rw [hb, hblk]; rfl
        · exact ihres b hb
      · simpa [dispatchTools, ihc] using hc
      · simpa [dispatchTools, ihh] using hh
      · simpa [dispatchTools, ihl] using hl

/-- The state `afterDispatchState` keeps the caller array, extends the history by the
assistant message and the single user-role results message, and counts one
`callLLM` invocation. -/
theorem afterDispatchState_spec (cs : CallSubOracle) (sats : List SubAgentEntry)
    (sk : List Skill) (st : RunState) (response : Response) :
    (afterDispatchState cs sats sk st response).caller = st.caller ∧
    (∃ t, st.history ++ t = (afterDispatchState cs sats sk st response).history) ∧
    (afterDispatchState cs sats sk st response).llmCalls = st.llmCalls + 1 := by
  obtain ⟨_, _, dcaller, dhistory, dllm⟩ :=
    dispatchTools_spec cs sats sk (toolUsesOf response.content) (afterModelState st response)
  refine ⟨?_, ?_, ?_⟩
  · simpa [afterDispatchState, afterModelState] using dcaller
  · refine ⟨[{ role := "assistant", content := MsgContent.blocks response.content }] ++
      [{ role := "user", content := MsgContent.blocks (dispatchTools cs sats sk
        (afterModelState st response) (toolUsesOf response.content)).2 }], ?_⟩
    show _ = (afterDispatchState cs sats sk st response).history
    simp only [afterDispatchState]
    rw [dhistory]
    simp [afterModelState]
  · simpa [afterDispatchState, afterModelState] using dllm

/-- Loop invariants of `runTurns`: the caller's array is never touched,
the history only grows by appending, and at most `fuel` further `callLLM`
invocations happen. -/
theorem runTurns_invariants (llm : LLMOracle) (cs : CallSubOracle)
    (sats : List SubAgentEntry) (sk : List Skill) (tools : List Tool)
    (sp : Option String) :
    ∀ (fuel turn : Nat) (st : RunState),
    (runTurns llm cs sats sk tools sp fuel turn st).state.caller = st.caller ∧
    (∃ t, st.history ++ t = (runTurns llm cs sats sk tools sp fuel turn st).state.history) ∧
    (runTurns llm cs sats sk tools sp fuel turn st).state.llmCalls ≤ st.llmCalls + fuel := by
  intro fuel
  induction fuel with
  | zero =>
      intro turn st
      exact ⟨rfl, ⟨[], by simp [runTurns]⟩, by simp [runTurns]⟩
  | succ n ih =>
      intro turn st
      unfold runTurns
      cases hllm : llm turn st.history tools sp with
      | error e =>
          dsimp only
          exact ⟨rfl, ⟨[], by simp⟩,
            by show st.llmCalls + 1 ≤ st.llmCalls + (n + 1); omega⟩
      | ok response =>
          dsimp only
          by_cases hne : (toolUsesOf response.content).isEmpty
          · rw [if_pos hne]
            exact ⟨rfl, ⟨_, rfl⟩,
              by show (afterModelState st response).llmCalls ≤ st.llmCalls + (n + 1)
                 simp [afterModelState]⟩
          · rw [if_neg hne]
            obtain ⟨acaller, ⟨u, au⟩, allm⟩ := afterDispatchState_spec cs sats sk st response
            obtain ⟨ihc, ⟨t, iht⟩, ihl⟩ := ih (turn + 1) (afterDispatchState cs sats sk st response)
            refine ⟨by rw [ihc, acaller], ⟨u ++ t, ?_⟩, ?_⟩
            · rw [← List.append_assoc, au, iht]
            · calc (runTurns llm cs sats sk tools sp n (turn + 1)
                    (afterDispatchState cs sats sk st response)).state.llmCalls
                  ≤ (afterDispatchState cs sats sk st response).llmCalls + n := ihl
                _ = st.llmCalls + (n + 1) := by rw [allm]; omega

/-- If every `callLLM` round trip succeeds, `runTurns` ends without an
error — in particular when the loop runs out of fuel. -/
theorem runTurns_ok (llm : LLMOracle) (cs : CallSubOracle)
    (sats : List SubAgentEntry) (sk : List Skill) (tools : List Tool)
    (sp : Option String)
    (hok : ∀ t h tl sp2, ∃ r, llm t h tl sp2 = Except.ok r) :
    ∀ (fuel turn : Nat) (st : RunState),
    (runTurns llm cs sats sk tools sp fuel turn st).error = none := by
  intro fuel
  induction fuel with
  | zero => intro turn st; rfl
  | succ n ih =>
      intro turn st
      unfold runTurns
      obtain ⟨r, hr⟩ := hok turn st.history tools sp
      rw [hr]
      dsimp only
      by_cases hne : (toolUsesOf r.content).isEmpty
      · rw [if_pos hne]
      · rw [if_neg hne]
        exact ih (turn + 1) _

/-- Reading back the session slot that was just assigned. -/
theorem lookupSession_setSession (s : Sessions) (id : String) (v : Option String) :
    lookupSession (setSession s id v) id = v := by
  induction s with
  | nil => simp [setSession, lookupSession]
  | cons e rest ih =>
      by_cases h : e.1 = id
      · simp [setSession, h, lookupSession]
      · have hbe : (e.1 == id) = false := beq_eq_false_iff_ne.mpr h
        simp only [setSession, if_neg h]
        simpa [lookupSession, List.find?, hbe] using ih

/-- Every enabled SubAgent whose discovery probe succeeds contributes its
tool entry to the list `loadSubAgentTools` builds, whatever happens to the
other SubAgents. -/
theorem loadSubAgentToolsList_mem
    (probe : String → Option SubAgentAuth → Except String SubAgentInfo) :
    ∀ (subAgents : List SubAgentConfig) (a : SubAgentConfig) (info : SubAgentInfo),
    a ∈ subAgents → a.enabled = true → probe a.url a.auth = Except.ok info →
    buildSubAgentTool a info ∈ loadSubAgentToolsList probe subAgents := by
  intro subAgents
  induction subAgents with
  | nil => intro a info ha; simp at ha
  | cons sa rest ih =>
      intro a info ha hen hprobe
      rcases List.mem_cons.mp ha with h | h
      · subst h
        simp only [loadSubAgentToolsList, hen]
        rw [hprobe]
        simp
      · have hmem := ih a info h hen hprobe
        simp only [loadSubAgentToolsList]
        by_cases hsae : sa.enabled
        · simp only [hsae]
          cases hp : probe sa.url sa.auth with
          | ok i => simp [hmem]
          | error e => simpa using hmem
        · simpa [hsae] using hmem

-- ─── Concrete fixtures for witnesses and counterexamples ─────────────────────

/-- An adapter oracle that always answers with plain text (no tool use). -/
def llmNoTools : LLMOracle := fun _ _ _ _ => Except.ok { content := [Block.text "4"] }

/-- An adapter oracle that requests an unregistered tool on every turn. -/
def llmAlwaysTool : LLMOracle := fun _ _ _ _ =>
  Except.ok { content := [Block.toolUse "t1" "mystery" (JValue.obj [])] }

/-- A collaborator oracle whose delegation call always throws. -/
def callSubFail : CallSubOracle := fun _ _ _ _ => Except.error "boom"

/-- A collaborator oracle that echoes the session it was given and returns
a fresh continuation token. -/
def callSubTok : CallSubOracle := fun _ _ _ sid =>
  Except.ok { message := "reply:" ++ sid.getD "none", session_id := some "tok-1" }

def emptyRunState : RunState :=
  { caller := [], history := [], sessions := [], events := [], llmCalls := 0 }

/-- The response used by the C1 witness: one unresolvable tool request. -/
def respTool : Response := { content := [Block.toolUse "t1" "mystery" (JValue.obj [])] }

-- ─── Claims ──────────────────────────────────────────────────────────────────

/-- C1: for every assistant message the provider adapter returns inside the
turn loop, the dispatch loop produces one tool_result block per tool_use
block of that message, in the same order and with the matching
`tool_use_id` — whatever the tool name resolution or collaborator outcome,
since `cs` is universally quantified — and the loop appends all of them to
history as one new user-role message (right after the assistant message)
before recursing. -/
theorem runChat_results_match_requests (llm : LLMOracle) (cs : CallSubOracle)
    (sats : List SubAgentEntry) (sk : List Skill) (tools : List Tool)
    (sp : Option String) (fuel turn : Nat) (st : RunState) (response : Response)
    (hllm : llm turn st.history tools sp = Except.ok response)
    (hne : (toolUsesOf response.content).isEmpty = false) :
    (dispatchTools cs sats sk (afterModelState st response)
        (toolUsesOf response.content)).2.map Block.resultId =
      (toolUsesOf response.content).map (fun tc => tc.id) ∧
    (∀ b ∈ (dispatchTools cs sats sk (afterModelState st response)
        (toolUsesOf response.content)).2, b.isToolResultB = true) ∧
    (afterDispatchState cs sats sk st response).history =
      (afterModelState st response).history ++
        [{ role := "user", content := MsgContent.blocks
            (dispatchTools cs sats sk (afterModelState st response)
              (toolUsesOf response.content)).2 }] ∧
    runTurns llm cs sats sk tools sp (fuel + 1) turn st =
      runTurns llm cs sats sk tools sp fuel (turn + 1)
        (afterDispatchState cs sats sk st response) := by
  obtain ⟨hids, hres, _, dh, _⟩ :=
    dispatchTools_spec cs sats sk (toolUsesOf response.content) (afterModelState st response)
  refine ⟨hids, hres, ?_, ?_⟩
  · simp only [afterDispatchState]
    rw [dh]
  · conv_lhs => rw [runTurns]
    rw [hllm]
    dsimp only
    rw [if_neg (by simp [hne])]

/-- Witness for `runChat_results_match_requests` on a concrete turn whose
only tool request is unresolvable. -/
theorem runChat_results_match_requests_witness :
    (llmAlwaysTool 0 ([] : List Message) ([] : List Tool) none = Except.ok respTool) ∧
    ((toolUsesOf respTool.content).isEmpty = false) ∧
    ((dispatchTools callSubFail [] [] (afterModelState emptyRunState respTool)
        (toolUsesOf respTool.content)).2.map Block.resultId =
      (toolUsesOf respTool.content).map (fun tc => tc.id)) ∧
    (runTurns llmAlwaysTool callSubFail [] [] [] none 1 0 emptyRunState =
      runTurns llmAlwaysTool callSubFail [] [] [] none 0 1
        (afterDispatchState callSubFail [] [] emptyRunState respTool)) :=
  ⟨rfl, rfl,
    (runChat_results_match_requests llmAlwaysTool callSubFail [] [] [] none 0 0
      emptyRunState respTool rfl rfl).1,
    (runChat_results_match_requests llmAlwaysTool callSubFail [] [] [] none 0 0
      emptyRunState respTool rfl rfl).2.2.2⟩

/-- C2: one `runChat` call invokes the provider adapter (`callLLM`) at most
`MAX_TURNS = 10` times, and exhausting the turn budget ends the loop
normally (error-free) rather than raising. -/
theorem runChat_turn_budget (llm : LLMOracle) (cs : CallSubOracle)
    (messages : List Message) (sats : List SubAgentEntry)
    (sessions : Sessions) (skills : List Skill) :
    MAX_TURNS = 10 ∧
    (runChat llm cs messages sats sessions skills).state.llmCalls ≤ MAX_TURNS ∧
    ((∀ t h tl sp2, ∃ r, llm t h tl sp2 = Except.ok r) →
      (runChat llm cs messages sats sessions skills).error = none) := by
  refine ⟨rfl, ?_, ?_⟩
  · have h := (runTurns_invariants llm cs sats (skills.filter (fun s => s.enabled))
      (assembleTools sats (skills.filter (fun s => s.enabled)))
      (buildSystemPrompt (skills.filter (fun s => s.enabled))) MAX_TURNS 0
      { caller := messages, history := messages, sessions := sessions,
        events := [], llmCalls := 0 }).2.2
    simpa [runChat] using h
  · intro hok
    have h := runTurns_ok llm cs sats (skills.filter (fun s => s.enabled))
      (assembleTools sats (skills.filter (fun s => s.enabled)))
      (buildSystemPrompt (skills.filter (fun s => s.enabled))) hok MAX_TURNS 0
      { caller := messages, history := messages, sessions := sessions,
        events := [], llmCalls := 0 }
    simpa [runChat] using h

/-- Witness for `runChat_turn_budget`: an oracle that requests a tool on
every turn exhausts the budget without an error. -/
theorem runChat_turn_budget_witness :
    (runChat llmAlwaysTool callSubFail [] [] [] []).state.llmCalls ≤ MAX_TURNS ∧
    (runChat llmAlwaysTool callSubFail [] [] [] []).error = none :=
  ⟨(runChat_turn_budget llmAlwaysTool callSubFail [] [] [] []).2.1,
   (runChat_turn_budget llmAlwaysTool callSubFail [] [] [] []).2.2
     (fun _ _ _ _ => ⟨_, rfl⟩)⟩

/-- C10: `runChat` copies the caller-supplied messages array into a fresh
local history; the caller's array is unchanged after the call (normal or
thrown outcome alike, both being covered by the outcome record), and all
appends go to the local history, which extends the original list. -/
theorem runChat_never_mutates_caller (llm : LLMOracle) (cs : CallSubOracle)
    (messages : List Message) (sats : List SubAgentEntry)
    (sessions : Sessions) (skills : List Skill) :
    (runChat llm cs messages sats sessions skills).state.caller = messages ∧
    ∃ t, messages ++ t = (runChat llm cs messages sats sessions skills).state.history := by
  have h := runTurns_invariants llm cs sats (skills.filter (fun s => s.enabled))
    (assembleTools sats (skills.filter (fun s => s.enabled)))
    (buildSystemPrompt (skills.filter (fun s => s.enabled))) MAX_TURNS 0
    { caller := messages, history := messages, sessions := sessions,
      events := [], llmCalls := 0 }
  exact ⟨by simpa [runChat] using h.1, by simpa [runChat] using h.2.1⟩

/-- JS truthiness guard on a string append: appending a falsy (empty)
fragment is skipped by the source, which coincides with appending it. -/
theorem appendGuard (raw a : String) : (if a ≠ "" then raw ++ a else raw) = raw ++ a := by
  by_cases h : a = "" <;> simp [h]

/-- C3: when the Format-B stream delivers several chunks for the same
tool-call index whose `arguments` fragments concatenate to parseable JSON
(the first chunk carrying the call's id and name, as the wire protocol
does) and the stream ends without any `finish_reason` or terminal chunk,
`parseOAIStream` still returns exactly one completed tool_use block for
that index carrying the parsed input. -/
theorem parseOAIStream_flushes_on_stream_end
    (jsonParse : String → Option JValue) (id name f1 f2 f3 : String) (v : JValue)
    (hid : id ≠ "") (hname : name ≠ "")
    (hparse : jsonParse (f1 ++ f2 ++ f3) = some v) :
    parseOAIStream jsonParse
      [OAILine.chunk (some { tool_calls := some [{ index := 0, id := some id,
                                                    name := some name, arguments := some f1 }] }) none,
       OAILine.chunk (some { tool_calls := some [{ index := 0, arguments := some f2 }] }) none,
       OAILine.chunk (some { tool_calls := some [{ index := 0, arguments := some f3 }] }) none]
      = { content := [Block.toolUse id name v] } := by
  by_cases h1 : f1 = "" <;> by_cases h2 : f2 = "" <;> by_cases h3 : f3 = "" <;>
    simp_all [parseOAIStream, oaiRun, applyToolCallDelta, updateBufAt, emptyOAIToolBuf,
      oaiFlushFinish]

/-- A concrete stand-in for `JSON.parse` defined on exactly the payload
`{"a":1}`, used to instantiate the parse-function parameter in witnesses. -/
def jsonParseABit : String → Option JValue := fun s =>
  if s = "\x7b\"a\":1\x7d" then some (JValue.obj [("a", JValue.num 1)]) else none

/-- Witness for `parseOAIStream_flushes_on_stream_end` at the spec's
scenario fragments. -/
theorem parseOAIStream_flushes_on_stream_end_witness :
    ("call_1" : String) ≠ "" ∧ ("f" : String) ≠ "" ∧
    jsonParseABit ("\x7b\"a\":1" ++ "\x7d" ++ "") = some (JValue.obj [("a", JValue.num 1)]) ∧
    parseOAIStream jsonParseABit
      [OAILine.chunk (some { tool_calls := some [⟨0, some "call_1", some "f", some "\x7b\"a\":1"⟩] }) none,
       OAILine.chunk (some { tool_calls := some [⟨0, none, none, some "\x7d"⟩] }) none,
       OAILine.chunk (some { tool_calls := some [⟨0, none, none, some ""⟩] }) none]
      = { content := [Block.toolUse "call_1" "f" (JValue.obj [("a", JValue.num 1)])] } :=
  ⟨by decide, by decide, rfl,
    parseOAIStream_flushes_on_stream_end jsonParseABit "call_1" "f" "\x7b\"a\":1" "\x7d" ""
      (JValue.obj [("a", JValue.num 1)]) (by decide) (by decide) rfl⟩

/-- C4: in both provider adapters, a fully accumulated tool-call input
string that fails JSON parsing yields a tool_use block carrying the empty
object as its input, and the stream parse completes normally with that
block rather than raising. -/
theorem stream_parsers_empty_object_on_parse_failure
    (jsonParse : String → Option JValue) (id name raw : String)
    (hid : id ≠ "") (hname : name ≠ "") (hfail : jsonParse raw = none) :
    parseAnthropicStream jsonParse
      [AnthEvent.contentBlockStart (AnthContentBlockInfo.toolUseBlock id name),
       AnthEvent.contentBlockDelta (AnthDelta.inputJsonDelta raw),
       AnthEvent.contentBlockStop]
      = { content := [Block.toolUse id name (JValue.obj [])] } ∧
    parseOAIStream jsonParse
      [OAILine.chunk (some { tool_calls := some [⟨0, some id, some name, some raw⟩] })
        (some "tool_calls")]
      = { content := [Block.toolUse id name (JValue.obj [])] } := by
  constructor
  · simp [parseAnthropicStream, anthStep, hfail]
  · by_cases hr : raw = "" <;>
      simp_all [parseOAIStream, oaiRun, applyToolCallDelta, updateBufAt,
        emptyOAIToolBuf, oaiFlushFinish]

/-- A stand-in for `JSON.parse` that fails on every input. -/
def jsonParseNever : String → Option JValue := fun _ => none

/-- Witness for `stream_parsers_empty_object_on_parse_failure` on the
unparseable accumulated payload `oops`. -/
theorem stream_parsers_empty_object_on_parse_failure_witness :
    ("i1" : String) ≠ "" ∧ ("g" : String) ≠ "" ∧ jsonParseNever "oops" = none ∧
    parseAnthropicStream jsonParseNever
      [AnthEvent.contentBlockStart (AnthContentBlockInfo.toolUseBlock "i1" "g"),
       AnthEvent.contentBlockDelta (AnthDelta.inputJsonDelta "oops"),
       AnthEvent.contentBlockStop]
      = { content := [Block.toolUse "i1" "g" (JValue.obj [])] } ∧
    parseOAIStream jsonParseNever
      [OAILine.chunk (some { tool_calls := some [⟨0, some "i1", some "g", some "oops"⟩] })
        (some "tool_calls")]
      = { content := [Block.toolUse "i1" "g" (JValue.obj [])] } :=
  ⟨by decide, by decide, rfl,
    (stream_parsers_empty_object_on_parse_failure jsonParseNever "i1" "g" "oops"
      (by decide) (by decide) rfl).1,
    (stream_parsers_empty_object_on_parse_failure jsonParseNever "i1" "g" "oops"
      (by decide) (by decide) rfl).2⟩

-- more fixtures

def skillW : Skill :=
  { name := "pdf", description := "reads pdfs", content := "FULL PDF INSTRUCTIONS",
    enabled := true }

def skillOff : Skill :=
  { name := "excel", description := "sheets", content := "EXCEL INSTRUCTIONS",
    enabled := false }

def entryW : SubAgentEntry :=
  { subAgentId := "sa-1", subAgentUrl := "http://agent", subAgentAuth := none,
    tool := { name := "subagent_sa_1", description := "Agent One: demo",
              input_schema := JValue.obj [] } }

def tcW : ToolUseData :=
  { id := "t2", name := "subagent_sa_1",
    input := JValue.obj [("message", JValue.str "go")] }

/-- C5: a successful delegation stores the returned continuation token in
the sessions map under the collaborator's id; a following dispatch to the
same collaborator over the same sessions map reads exactly that token
back, and the `callSubAgent` request body then carries it as `session_id`
(a continuation token being nonempty — the source treats a falsy one as
absent); when no token is stored the `session_id` field is omitted from
the body. -/
theorem session_token_reuse (cs : CallSubOracle) (sats : List SubAgentEntry)
    (sk : List Skill) (st : RunState) (tc : ToolUseData) (entry : SubAgentEntry)
    (r : SubAgentResult)
    (hname : tc.name ≠ "read_skill")
    (hfind : sats.find? (fun e => e.tool.name == tc.name) = some entry)
    (hcall : cs entry.subAgentUrl entry.subAgentAuth (tc.input.getField "message")
        (lookupSession st.sessions entry.subAgentId) = Except.ok r) :
    (dispatchTool cs sats sk st tc).1.sessions =
      setSession st.sessions entry.subAgentId r.session_id ∧
    (∀ t, r.session_id = some t →
      lookupSession (dispatchTool cs sats sk st tc).1.sessions entry.subAgentId = some t ∧
      (t ≠ "" → (subAgentChatBody (tc.input.getField "message")
          (lookupSession (dispatchTool cs sats sk st tc).1.sessions
            entry.subAgentId)).session_id = some t)) ∧
    (∀ (s : Sessions) (cid : String) (m : Option JValue), lookupSession s cid = none →
      (subAgentChatBody m (lookupSession s cid)).session_id = none) := by
  have hses : (dispatchTool cs sats sk st tc).1.sessions =
      setSession st.sessions entry.subAgentId r.session_id := by
    unfold dispatchTool
    rw [if_neg hname, hfind]
    dsimp only
    rw [hcall]
  refine ⟨hses, ?_, ?_⟩
  · intro t ht
    rw [hses, ht, lookupSession_setSession]
    exact ⟨rfl, fun hne => by simp [subAgentChatBody, hne]⟩
  · intro s cid m hnone
    rw [hnone]
    rfl

/-- Witness for `session_token_reuse`: the collaborator returns token
`tok-1`, which the next request body carries verbatim. -/
theorem session_token_reuse_witness :
    tcW.name ≠ "read_skill" ∧
    (dispatchTool callSubTok [entryW] [] emptyRunState tcW).1.sessions =
      setSession emptyRunState.sessions "sa-1" (some "tok-1") ∧
    lookupSession (dispatchTool callSubTok [entryW] [] emptyRunState tcW).1.sessions
      "sa-1" = some "tok-1" ∧
    (subAgentChatBody (tcW.input.getField "message")
      (lookupSession (dispatchTool callSubTok [entryW] [] emptyRunState tcW).1.sessions
        "sa-1")).session_id = some "tok-1" ∧
    (subAgentChatBody none (lookupSession [] "absent")).session_id = none :=
  ⟨by decide,
   (session_token_reuse callSubTok [entryW] [] emptyRunState tcW entryW
      { message := "reply:none", session_id := some "tok-1" } (by decide) rfl rfl).1,
   ((session_token_reuse callSubTok [entryW] [] emptyRunState tcW entryW
      { message := "reply:none", session_id := some "tok-1" } (by decide) rfl rfl).2.1
      "tok-1" rfl).1,
   ((session_token_reuse callSubTok [entryW] [] emptyRunState tcW entryW
      { message := "reply:none", session_id := some "tok-1" } (by decide) rfl rfl).2.1
      "tok-1" rfl).2 (by decide),
   (session_token_reuse callSubTok [entryW] [] emptyRunState tcW entryW
      { message := "reply:none", session_id := some "tok-1" } (by decide) rfl rfl).2.2
      [] "absent" none rfl⟩

/-- C6 is false on the code: dispatching a `read_skill` request — and
likewise a request whose tool name resolves to nothing — leaves the
events list untouched, so no tool_call progress event precedes (nor does
any tool_result event follow) these dispatches. -/
theorem read_skill_dispatch_emits_no_events :
    (dispatchTool callSubFail [] [skillW] emptyRunState
      { id := "t1", name := "read_skill",
        input := JValue.obj [("skill_name", JValue.str "pdf")] }).1.events = [] ∧
    (dispatchTool callSubFail [] [skillW] emptyRunState
      { id := "t1", name := "mystery", input := JValue.obj [] }).1.events = [] :=
  ⟨rfl, rfl⟩

/-- C6 (amended): the tool_call / tool_result progress-event pair is
emitted only around collaborator dispatches — a dispatch resolving to a
sub-agent tool emits exactly one tool_call event before the network call
and one tool_result event after it, while `read_skill` dispatches and
dispatches with an unresolvable tool name emit no progress events. -/
theorem progress_events_around_collaborator_dispatch
    (cs : CallSubOracle) (sats : List SubAgentEntry) (sk : List Skill)
    (st : RunState) (tc : ToolUseData) :
    (tc.name = "read_skill" → (dispatchTool cs sats sk st tc).1.events = st.events) ∧
    (tc.name ≠ "read_skill" → sats.find? (fun e => e.tool.name == tc.name) = none →
      (dispatchTool cs sats sk st tc).1.events = st.events) ∧
    (∀ entry, tc.name ≠ "read_skill" →
      sats.find? (fun e => e.tool.name == tc.name) = some entry →
      ∃ c, (dispatchTool cs sats sk st tc).1.events =
        st.events ++ [Event.toolCall tc.name ((entry.tool.description.splitOn ":").headD "")
          (tc.input.getField "message"), Event.toolResult tc.name c]) := by
  refine ⟨?_, ?_, ?_⟩
  · intro h
    unfold dispatchTool
    rw [if_pos h]
  · intro h hn
    unfold dispatchTool
    rw [if_neg h, hn]
  · intro entry h hf
    unfold dispatchTool
    rw [if_neg h, hf]
    dsimp only
    cases cs entry.subAgentUrl entry.subAgentAuth (tc.input.getField "message")
        (lookupSession st.sessions entry.subAgentId) with
    | ok r => exact ⟨r.message, by simp⟩
    | error e => exact ⟨"调用失败: " ++ e, by simp⟩

/-- Witness for `progress_events_around_collaborator_dispatch`: a resolved
collaborator dispatch brackets the call with the two events; a read_skill
dispatch emits none. -/
theorem progress_events_around_collaborator_dispatch_witness :
    (∃ c, (dispatchTool callSubTok [entryW] [] emptyRunState tcW).1.events =
      emptyRunState.events ++ [Event.toolCall tcW.name
        ((entryW.tool.description.splitOn ":").headD "")
        (tcW.input.getField "message"), Event.toolResult tcW.name c]) ∧
    (dispatchTool callSubTok [entryW] [] emptyRunState
      { id := "t1", name := "read_skill", input := JValue.obj [] }).1.events =
      emptyRunState.events :=
  ⟨(progress_events_around_collaborator_dispatch callSubTok [entryW] [] emptyRunState
      tcW).2.2 entryW (by decide) rfl,
   (progress_events_around_collaborator_dispatch callSubTok [entryW] [] emptyRunState
      { id := "t1", name := "read_skill", input := JValue.obj [] }).1 rfl⟩

/-- C7: a `read_skill` call whose `skill_name` strictly equals the name of
an enabled skill gets that skill's full content as its tool result; when
no enabled skill matches — the lookup runs over `skills.filter enabled`,
so a name matching only a disabled skill falls through — the result is the
error string listing the names of all currently enabled skills; in both
cases the dispatch loop continues through the remaining requests instead
of aborting. -/
theorem read_skill_resolution (cs : CallSubOracle) (sats : List SubAgentEntry)
    (skills : List Skill) (st : RunState) (tc : ToolUseData)
    (rest : List ToolUseData) (hname : tc.name = "read_skill") :
    (∀ sk2, (skills.filter (fun s => s.enabled)).find?
        (fun s => isStrEqJ (tc.input.getField "skill_name") s.name) = some sk2 →
      (dispatchTool cs sats (skills.filter (fun s => s.enabled)) st tc).2 =
        Block.toolResult tc.id sk2.content ∧ sk2.enabled = true ∧ sk2 ∈ skills) ∧
    ((skills.filter (fun s => s.enabled)).find?
        (fun s => isStrEqJ (tc.input.getField "skill_name") s.name) = none →
      (dispatchTool cs sats (skills.filter (fun s => s.enabled)) st tc).2 =
        Block.toolResult tc.id ("Skill \"" ++ jsDisplay (tc.input.getField "skill_name") ++
          "\" not found. Available: " ++
          String.intercalate ", " ((skills.filter (fun s => s.enabled)).map
            (fun s => s.name)))) ∧
    ((dispatchTools cs sats (skills.filter (fun s => s.enabled)) st (tc :: rest)).2.length
      = rest.length + 1) := by
  refine ⟨?_, ?_, ?_⟩
  · intro sk2 hfind
    have hmem := List.mem_of_find?_eq_some hfind
    have hmem2 := List.mem_filter.mp hmem
    refine ⟨?_, hmem2.2, hmem2.1⟩
    unfold dispatchTool
    rw [if_pos hname]
    dsimp only
    rw [hfind]
  · intro hfind
    unfold dispatchTool
    rw [if_pos hname]
    dsimp only
    rw [hfind]
  · have h := (dispatchTools_spec cs sats (skills.filter (fun s => s.enabled))
      (tc :: rest) st).1
    have h2 := congrArg List.length h
    simpa using h2

/-- Witness for `read_skill_resolution`: with one enabled and one disabled
skill, asking for the enabled one returns its content; asking for the
disabled one returns the error string listing only the enabled name. -/
theorem read_skill_resolution_witness :
    (dispatchTool callSubFail [] ([skillW, skillOff].filter (fun s => s.enabled))
      emptyRunState
      { id := "t1", name := "read_skill",
        input := JValue.obj [("skill_name", JValue.str "pdf")] }).2 =
      Block.toolResult "t1" "FULL PDF INSTRUCTIONS" ∧
    (dispatchTool callSubFail [] ([skillW, skillOff].filter (fun s => s.enabled))
      emptyRunState
      { id := "t1", name := "read_skill",
        input := JValue.obj [("skill_name", JValue.str "excel")] }).2 =
      Block.toolResult "t1" ("Skill \"" ++ jsDisplay ((JValue.obj
        [("skill_name", JValue.str "excel")]).getField "skill_name") ++
        "\" not found. Available: " ++
        String.intercalate ", " (([skillW, skillOff].filter (fun s => s.enabled)).map
          (fun s => s.name))) ∧
    (dispatchTools callSubFail [] ([skillW, skillOff].filter (fun s => s.enabled))
      emptyRunState
      [{ id := "t1", name := "read_skill",
         input := JValue.obj [("skill_name", JValue.str "pdf")] },
       { id := "t9", name := "mystery", input := JValue.obj [] }]).2.length = 1 + 1 :=
  ⟨((read_skill_resolution callSubFail [] [skillW, skillOff] emptyRunState
      { id := "t1", name := "read_skill",
        input := JValue.obj [("skill_name", JValue.str "pdf")] } [] rfl).1
      skillW rfl).1,
   (read_skill_resolution callSubFail [] [skillW, skillOff] emptyRunState
      { id := "t1", name := "read_skill",
        input := JValue.obj [("skill_name", JValue.str "excel")] } [] rfl).2.1 rfl,
   (read_skill_resolution callSubFail [] [skillW, skillOff] emptyRunState
      { id := "t1", name := "read_skill",
        input := JValue.obj [("skill_name", JValue.str "pdf")] }
      [{ id := "t9", name := "mystery", input := JValue.obj [] }] rfl).2.2⟩

def agentGood : SubAgentConfig :=
  { id := "good-1", name := "Good", url := "http://good", auth := none, enabled := true }

def agentBad : SubAgentConfig :=
  { id := "bad-1", name := "Bad", url := "http://bad", auth := none, enabled := true }

def infoW : SubAgentInfo :=
  { name := some "Good Agent", description := some "helps", capabilities := none }

/-- A discovery-probe oracle that succeeds only for `http://good`. -/
def probeW : String → Option SubAgentAuth → Except String SubAgentInfo := fun url _ =>
  if url = "http://good" then Except.ok infoW else Except.error "HTTP 500"

/-- C8: a failed discovery probe of one collaborator is caught inside
`loadSubAgentTools` (it cannot raise out of the collection loop): every
other enabled collaborator whose probe succeeds still receives its tool
entry, the fresh sessions map is still returned, and `runChat`'s tool
assembly still includes the `read_skill` disclosure tool whenever at least
one skill is enabled. -/
theorem discovery_failure_is_isolated
    (probe : String → Option SubAgentAuth → Except String SubAgentInfo)
    (subAgents : List SubAgentConfig) (a0 : SubAgentConfig) (err : String)
    (_h0 : a0 ∈ subAgents) (_hfail : probe a0.url a0.auth = Except.error err) :
    (∀ a info, a ∈ subAgents → a.enabled = true → probe a.url a.auth = Except.ok info →
      buildSubAgentTool a info ∈ (loadSubAgentTools probe subAgents).1) ∧
    (loadSubAgentTools probe subAgents).2 = [] ∧
    (∀ (entries : List SubAgentEntry) (skills : List Skill),
      skills.filter (fun s => s.enabled) ≠ [] →
      READ_SKILL_TOOL ∈ assembleTools entries (skills.filter (fun s => s.enabled))) := by
  refine ⟨?_, rfl, ?_⟩
  · intro a info ha hen hp
    exact loadSubAgentToolsList_mem probe subAgents a info ha hen hp
  · intro entries skills hne
    have hlen : (skills.filter (fun s => s.enabled)).length > 0 := List.length_pos.mpr hne
    simp only [assembleTools, if_pos hlen]
    exact List.mem_append_right _ (List.mem_singleton.mpr rfl)

/-- Witness for `discovery_failure_is_isolated`: with one unreachable and
one reachable collaborator, the reachable one's tool entry is built and
the disclosure tool is assembled for one enabled skill. -/
theorem discovery_failure_is_isolated_witness :
    agentBad ∈ [agentBad, agentGood] ∧
    probeW agentBad.url agentBad.auth = Except.error "HTTP 500" ∧
    buildSubAgentTool agentGood infoW ∈ (loadSubAgentTools probeW [agentBad, agentGood]).1 ∧
    READ_SKILL_TOOL ∈ assembleTools [] ([skillW].filter (fun s => s.enabled)) :=
  ⟨List.mem_cons_self agentBad [agentGood], rfl,
   (discovery_failure_is_isolated probeW [agentBad, agentGood] agentBad "HTTP 500"
      (List.mem_cons_self agentBad [agentGood]) rfl).1 agentGood infoW
      (List.mem_cons_of_mem agentBad (List.mem_cons_self agentGood [])) rfl rfl,
   (discovery_failure_is_isolated probeW [agentBad, agentGood] agentBad "HTTP 500"
      (List.mem_cons_self agentBad [agentGood]) rfl).2.2 [] [skillW]
      (List.cons_ne_nil skillW [])⟩

-- ─── C9: history translation into the two provider request shapes ────────────

/-- Histories as the turn loop constructs them: roles are user/assistant,
block-array assistant messages carry no tool_result blocks (they come from
the stream parsers), and block-array user messages are exactly the
nonempty all-tool_result messages the loop appends. -/
def wfTurnLoopMsg (m : Message) : Bool :=
  (m.role == "user" || m.role == "assistant") &&
  (match m.content with
   | .str _ => true
   | .blocks bs =>
      if m.role == "assistant" then bs.all (fun b => !b.isToolResultB)
      else bs.all Block.isToolResultB && !bs.isEmpty)

/-- The plain text of a message: its string content, or its text blocks
joined in order. -/
def msgText (m : Message) : String :=
  match m.content with
  | .str s => s
  | .blocks bs => String.join (textsOfBlocks bs)

theorem joinSingletonStr (a : String) : String.join [a] = a := by
  simp [String.join]

theorem joinConsStr (a : String) (l : List String) :
    String.join (a :: l) = a ++ String.join l := by
  have h := joinAppendStr [a] l
  simpa [String.join] using h

theorem convertMessagesToOAI_eq_flatMap (stringify : JValue → String)
    (msgs : List Message) :
    convertMessagesToOAI stringify msgs = msgs.flatMap (oaiMessagesOf stringify) := by
  induction msgs with
  | nil => rfl
  | cons m rest ih => simp [convertMessagesToOAI, ih]

/-- A block-array user message made only of tool_result blocks becomes the
per-block list of role-`tool` wire messages, in block order. -/
theorem oaiMessagesOf_user_toolResults (stringify : JValue → String)
    (m : Message) (bs : List Block)
    (hrole : m.role = "user") (hbs : m.content = MsgContent.blocks bs)
    (hall : bs.all Block.isToolResultB = true) (hne : bs.isEmpty = false) :
    oaiMessagesOf stringify m = bs.map (fun b =>
      { role := "tool", content := some b.resultContent,
        tool_call_id := some b.resultId, tool_calls := none }) := by
  have hfilter : bs.filter Block.isToolResultB = bs :=
    List.filter_eq_self.mpr (List.all_eq_true.mp hall)
  simp only [oaiMessagesOf, hbs]
  rw [if_neg (by simp [hrole]), hfilter, if_pos ⟨hrole, by simp [hne]⟩]

/-- Decomposition of well-formedness for block-array user messages. -/
theorem wf_user_blocks (m : Message) (bs : List Block) (hwf : wfTurnLoopMsg m = true)
    (hrole : m.role = "user") (hbs : m.content = MsgContent.blocks bs) :
    bs.all Block.isToolResultB = true ∧ bs.isEmpty = false := by
  unfold wfTurnLoopMsg at hwf
  rw [hbs, hrole] at hwf
  simpa [(by decide : (("user" : String) == "assistant") = false)] using hwf

/-- Per-message flattened-text preservation for the OpenAI translation. -/
theorem oaiMessagesOf_text (stringify : JValue → String) (m : Message)
    (hwf : wfTurnLoopMsg m = true) :
    String.join ((oaiMessagesOf stringify m).filterMap (fun om =>
      if om.role = "tool" then none else om.content)) = msgText m := by
  have hb : (m.role == "user" || m.role == "assistant") = true := by
    unfold wfTurnLoopMsg at hwf
    simp only [Bool.and_eq_true] at hwf
    exact hwf.1
  have hrole : m.role = "user" ∨ m.role = "assistant" := by
    have hb2 := hb
    simp only [Bool.or_eq_true, beq_iff_eq] at hb2
    exact hb2
  match hc : m.content with
  | .str s =>
      have hntool : ¬ m.role = "tool" := by
        rcases hrole with h | h <;> simp [h]
      simp [oaiMessagesOf, hc, msgText, hntool, String.join]
  | .blocks bs =>
      rcases hrole with hu | ha
      · -- user: all blocks are tool results, texts vanish on both sides
        obtain ⟨hall, hne⟩ := wf_user_blocks m bs hwf hu hc
        rw [oaiMessagesOf_user_toolResults stringify m bs hu hc hall hne]
        have htexts : textsOfBlocks bs = [] := by
          rw [textsOfBlocks, List.filterMap_eq_nil_iff]
          intro b hb2
          have := List.all_eq_true.mp hall b hb2
          cases b <;> simp_all [Block.isToolResultB]
        have hmap : (bs.map (fun b =>
            ({ role := "tool", content := some b.resultContent,
               tool_call_id := some b.resultId, tool_calls := none } : OAIMessage))).filterMap
              (fun om => if om.role = "tool" then none else om.content) = [] := by
          rw [List.filterMap_map, List.filterMap_eq_nil_iff]
          intro b hb2
          simp
        rw [hmap]
        simp [msgText, hc, htexts, String.join]
      · -- assistant: one wire message whose content is the joined text
        simp only [oaiMessagesOf, hc, ha, if_pos rfl]
        by_cases ht : String.join (textsOfBlocks bs) = ""
        · simp only [msgText, hc]
          generalize hj : String.join (textsOfBlocks bs) = j at ht ⊢
          simp [ht, String.join]
        · simp only [msgText, hc]
          generalize hj : String.join (textsOfBlocks bs) = j at ht ⊢
          simp [ht, joinSingletonStr]

/-- Whole-history flattened-text preservation for the OpenAI translation. -/
theorem oaiTextPreserved (stringify : JValue → String) :
    ∀ (msgs : List Message), msgs.all wfTurnLoopMsg = true →
    String.join ((convertMessagesToOAI stringify msgs).filterMap (fun om =>
      if om.role = "tool" then none else om.content)) =
    String.join (msgs.map msgText) := by
  intro msgs
  induction msgs with
  | nil => intro _; rfl
  | cons m rest ih =>
      intro hwf
      simp only [List.all_cons, Bool.and_eq_true] at hwf
      simp only [convertMessagesToOAI, List.map_cons, List.filterMap_append]
      rw [joinAppendStr, oaiMessagesOf_text stringify m hwf.1, ih hwf.2, joinConsStr]

/-- C9: translating a turn-loop history into either provider request shape
preserves the relative order of messages and of the text within them, and
maps every tool_result block to that format's function-response shape — in
the Anthropic mapping it stays a content block of the same user message
(block arrays are passed through verbatim), in the OpenAI mapping it
becomes a role-`tool` message carrying the matching `tool_call_id`. -/
theorem message_translation_preserves_order (stringify : JValue → String)
    (msgs : List Message) (hwf : msgs.all wfTurnLoopMsg = true) :
    ((callAnthropicMessages msgs).map (fun m => m.role) = msgs.map (fun m => m.role)) ∧
    (∀ m ∈ msgs, ∀ bs, m.content = MsgContent.blocks bs → (anthMessageOf m).content = bs) ∧
    (convertMessagesToOAI stringify msgs = msgs.flatMap (oaiMessagesOf stringify)) ∧
    (∀ m ∈ msgs, m.role = "user" → ∀ bs, m.content = MsgContent.blocks bs →
      oaiMessagesOf stringify m = bs.map (fun b =>
        { role := "tool", content := some b.resultContent,
          tool_call_id := some b.resultId, tool_calls := none })) ∧
    (String.join ((convertMessagesToOAI stringify msgs).filterMap (fun om =>
        if om.role = "tool" then none else om.content)) =
      String.join (msgs.map msgText)) ∧
    (∀ m ∈ msgs, ∀ bs i c, m.content = MsgContent.blocks bs →
      Block.toolResult i c ∈ bs → m.role = "user" →
      ({ role := "tool", content := some c, tool_call_id := some i,
         tool_calls := none } : OAIMessage) ∈ convertMessagesToOAI stringify msgs) := by
  refine ⟨by simp [callAnthropicMessages, List.map_map, anthMessageOf, Function.comp],
    ?_, convertMessagesToOAI_eq_flatMap stringify msgs, ?_,
    oaiTextPreserved stringify msgs hwf, ?_⟩
  · intro m hm bs hbs
    simp [anthMessageOf, hbs]
  · intro m hm hrole bs hbs
    obtain ⟨hall, hne⟩ := wf_user_blocks m bs (List.all_eq_true.mp hwf m hm) hrole hbs
    exact oaiMessagesOf_user_toolResults stringify m bs hrole hbs hall hne
  · intro m hm bs i c hbs hmem hrole
    obtain ⟨hall, hne⟩ := wf_user_blocks m bs (List.all_eq_true.mp hwf m hm) hrole hbs
    rw [convertMessagesToOAI_eq_flatMap]
    apply List.mem_flatMap.mpr
    refine ⟨m, hm, ?_⟩
    rw [oaiMessagesOf_user_toolResults stringify m bs hrole hbs hall hne]
    exact List.mem_map.mpr ⟨Block.toolResult i c, hmem, rfl⟩

def msgsW : List Message :=
  [{ role := "user", content := MsgContent.str "q" },
   { role := "assistant", content := MsgContent.blocks
      [Block.text "a", Block.toolUse "t1" "f" (JValue.obj [])] },
   { role := "user", content := MsgContent.blocks
      [Block.toolResult "t1" "r1", Block.toolResult "t2" "r2"] },
   { role := "assistant", content := MsgContent.blocks [Block.text "done"] }]

/-- A concrete stand-in for `JSON.stringify`. -/
def stringifyW : JValue → String := fun _ => "\x7b\x7d"

/-- Witness for `message_translation_preserves_order` on a four-message
turn-loop history containing a tool call and its results. -/
theorem message_translation_preserves_order_witness :
    msgsW.all wfTurnLoopMsg = true ∧
    ((callAnthropicMessages msgsW).map (fun m => m.role) = msgsW.map (fun m => m.role)) ∧
    (convertMessagesToOAI stringifyW msgsW = msgsW.flatMap (oaiMessagesOf stringifyW)) ∧
    (String.join ((convertMessagesToOAI stringifyW msgsW).filterMap (fun om =>
        if om.role = "tool" then none else om.content)) =
      String.join (msgsW.map msgText)) ∧
    ({ role := "tool", content := some "r2", tool_call_id := some "t2",
       tool_calls := none } : OAIMessage) ∈ convertMessagesToOAI stringifyW msgsW :=
  ⟨rfl,
   (message_translation_preserves_order stringifyW msgsW rfl).1,
   (message_translation_preserves_order stringifyW msgsW rfl).2.2.1,
   (message_translation_preserves_order stringifyW msgsW rfl).2.2.2.2.1,
   (message_translation_preserves_order stringifyW msgsW rfl).2.2.2.2.2
     { role := "user", content := MsgContent.blocks
        [Block.toolResult "t1" "r1", Block.toolResult "t2" "r2"] }
     (List.mem_cons_of_mem _ (List.mem_cons_of_mem _ (List.mem_cons_self _ _)))
     [Block.toolResult "t1" "r1", Block.toolResult "t2" "r2"] "t2" "r2" rfl
     (List.mem_cons_of_mem _ (List.mem_cons_self _ _)) rfl⟩
